import Mathlib

/-!
Verification of the GA3C worker process (ProcessAgent.py).

The Python source is shallowly embedded:
- scalar rewards, discount factors and probabilities (Python floats /
  numpy scalars) are modelled as rationals;
- the in-place mutation performed by the accumulator on the experience
  list is modelled functionally: the accumulator returns both the mutated
  buffer and the slice that the Python function returns;
- the environment, the prediction service and the stochastic action
  sampler are oracles: an episode is driven by a trace of per-step
  outcomes (observation, chosen action, prediction, value, reward,
  is_running flag).  The initial NOOP frames of an episode (while
  current_state is None) touch none of the modelled state and are
  therefore elided from the trace.
-/

namespace GA3C

/-- Configuration surface of the worker (Config.py fields read by
ProcessAgent.py). -/
structure Config where
  DISCOUNT : ℚ
  REWARD_CLIPPING : Bool
  REWARD_MIN : ℚ
  REWARD_MAX : ℚ
  TIME_MAX : ℕ
  NUM_LSTMS : ℕ
  PLAY_MODE : Bool
  MAX_STEPS : ℕ
deriving DecidableEq

/-- One environment step record (Experience.py): state, action taken,
prediction used, reward (overwritten by the accumulator with the
discounted return). -/
structure Experience where
  state : ℕ
  action : ℕ
  prediction : List ℚ
  reward : ℚ
deriving DecidableEq

def dummyExp : Experience := ⟨0, 0, [], 0⟩

instance : Inhabited Experience := ⟨dummyExp⟩

/-- Reward clipping as applied on lines 61 and 70 of ProcessAgent.py:
np.clip(r, REWARD_MIN, REWARD_MAX) when REWARD_CLIPPING is set, else the
raw reward. -/
def clip (cfg : Config) (r : ℚ) : ℚ :=
  if cfg.REWARD_CLIPPING then min (max r cfg.REWARD_MIN) cfg.REWARD_MAX else r

/-- The backward scan shared by both branches of _accumulate_rewards:
walking the list from the right with running sum seeded by s, it performs
reward_sum = discount * reward_sum + clip(reward[t]) and overwrites
reward[t].  Returns the overwritten list together with the final running
sum. -/
def accumPass (cfg : Config) (discount : ℚ) : List Experience → ℚ → List Experience × ℚ
  | [], s => ([], s)
  | e :: rest, s =>
    let p := accumPass cfg discount rest s
    let s2 := discount * p.2 + clip cfg e.reward
    (⟨e.state, e.action, e.prediction, s2⟩ :: p.1, s2)

/-- ProcessAgent._accumulate_rewards (lines 56-73).  First component: the
experience list after the in-place mutation (the caller's list object);
second component: the value returned by the Python function.  When
is_running (non-terminal cut) the scan runs over indices len-2 .. 0 seeded
with the bootstrap value and the slice experiences[:-1] is returned; when
terminal the scan runs over the whole list seeded with 0 and the whole
list is returned. -/
def accumulate_rewards (cfg : Config) (experiences : List Experience)
    (discount_factor value : ℚ) (is_running : Bool) :
    List Experience × List Experience :=
  if is_running then
    let p := accumPass cfg discount_factor experiences.dropLast value
    (p.1 ++ experiences.drop (experiences.length - 1), p.1)
  else
    let p := accumPass cfg discount_factor experiences 0
    (p.1, p.1)

lemma accumPass_length (cfg : Config) (d : ℚ) (l : List Experience) (s : ℚ) :
    (accumPass cfg d l s).1.length = l.length := by
  induction l with
  | nil => simp [accumPass]
  | cons e rest ih => simp [accumPass, ih]

/-- The head of the overwritten list carries the final running sum. -/
lemma accumPass_headI_reward (cfg : Config) (d : ℚ) (e : Experience)
    (rest : List Experience) (s : ℚ) :
    (accumPass cfg d (e :: rest) s).1.headI.reward
      = (accumPass cfg d (e :: rest) s).2 := by
  simp [accumPass]

/-- Closed form for the running sum of the backward scan. -/
lemma accumPass_snd (cfg : Config) (d : ℚ) (l : List Experience) (s : ℚ) :
    (accumPass cfg d l s).2
      = (∑ t ∈ Finset.range l.length, d ^ t * clip cfg ((l.getD t dummyExp).reward))
        + d ^ l.length * s := by
  induction l with
  | nil => simp [accumPass]
  | cons e rest ih =>
    simp only [accumPass, List.length_cons, ih]
    rw [Finset.sum_range_succ']
    simp only [List.getD_cons_succ, List.getD_cons_zero, pow_zero, one_mul]
    rw [mul_add, Finset.mul_sum]
    have hsum : ∀ t, d * (d ^ t * clip cfg ((rest.getD t dummyExp).reward))
        = d ^ (t + 1) * clip cfg ((rest.getD t dummyExp).reward) := by
      intro t; ring
    rw [Finset.sum_congr rfl (fun t _ => hsum t)]
    ring

/-- The scan never touches the state, action or prediction fields. -/
lemma accumPass_map_sap (cfg : Config) (d : ℚ) (l : List Experience) (s : ℚ) :
    (accumPass cfg d l s).1.map (fun e => (e.state, e.action, e.prediction))
      = l.map (fun e => (e.state, e.action, e.prediction)) := by
  induction l with
  | nil => simp [accumPass]
  | cons e rest ih => simp [accumPass, ih]

lemma getD_dropLast (l : List Experience) (d : Experience) (t : ℕ)
    (h : t < l.length - 1) : l.dropLast.getD t d = l.getD t d := by
  have h1 : t < l.dropLast.length := by rw [List.length_dropLast]; exact h
  have h2 : t < l.length := by omega
  rw [List.getD_eq_getElem l.dropLast d h1, List.getD_eq_getElem l d h2,
    List.getElem_dropLast]

/-- C1: for a non-terminal window of n >= 2 experiences, the accumulator
returns n-1 elements and the first returned reward is the full backward
discounted sum of the first n-1 clipped rewards plus the discounted
bootstrap value. -/
theorem accumulate_nonterminal_spec (cfg : Config) (exps : List Experience)
    (d v : ℚ) (h : 2 ≤ exps.length) :
    ((accumulate_rewards cfg exps d v true).2).length = exps.length - 1
    ∧ ((accumulate_rewards cfg exps d v true).2).headI.reward
        = (∑ t ∈ Finset.range (exps.length - 1),
            d ^ t * clip cfg ((exps.getD t dummyExp).reward))
          + d ^ (exps.length - 1) * v := by
  have hlen : exps.dropLast.length = exps.length - 1 := List.length_dropLast exps
  have hout : (accumulate_rewards cfg exps d v true).2
      = (accumPass cfg d exps.dropLast v).1 := rfl
  constructor
  · rw [hout, accumPass_length, hlen]
  · have hne : exps.dropLast ≠ [] := by
      intro hc
      rw [hc] at hlen
      simp at hlen
      omega
    obtain ⟨e, rest, hcons⟩ := List.exists_cons_of_ne_nil hne
    rw [hout, hcons, accumPass_headI_reward, ← hcons, accumPass_snd, hlen]
    congr 1
    apply Finset.sum_congr rfl
    intro t ht
    rw [getD_dropLast exps dummyExp t (Finset.mem_range.mp ht)]

def cfgW1 : Config := ⟨9/10, false, 0, 0, 5, 0, false, 100⟩

def expsW1 : List Experience := [⟨0, 0, [], 1⟩, ⟨1, 1, [], 2⟩, ⟨2, 0, [], 3⟩]

/-- Witness for C1 on the worked example of the spec: discount 9/10, no
clipping, rewards 1, 2, 3, bootstrap 10. -/
theorem accumulate_nonterminal_spec_witness :
    2 ≤ expsW1.length
    ∧ (((accumulate_rewards cfgW1 expsW1 (9/10) 10 true).2).length = expsW1.length - 1
       ∧ ((accumulate_rewards cfgW1 expsW1 (9/10) 10 true).2).headI.reward
           = (∑ t ∈ Finset.range (expsW1.length - 1),
               (9/10 : ℚ) ^ t * clip cfgW1 ((expsW1.getD t dummyExp).reward))
             + (9/10 : ℚ) ^ (expsW1.length - 1) * 10) :=
  ⟨by decide, accumulate_nonterminal_spec cfgW1 expsW1 (9/10) 10 (by decide)⟩

/-- C2: for a terminal window of n >= 1 experiences, the accumulator
returns all n elements, the first returned reward is the full backward
discounted sum of all n clipped rewards, and the bootstrap value argument
is ignored entirely. -/
theorem accumulate_terminal_spec (cfg : Config) (exps : List Experience)
    (d v : ℚ) (h : 1 ≤ exps.length) :
    ((accumulate_rewards cfg exps d v false).2).length = exps.length
    ∧ ((accumulate_rewards cfg exps d v false).2).headI.reward
        = ∑ t ∈ Finset.range exps.length, d ^ t * clip cfg ((exps.getD t dummyExp).reward)
    ∧ ∀ w : ℚ, accumulate_rewards cfg exps d w false
        = accumulate_rewards cfg exps d v false := by
  have hne : exps ≠ [] := by
    intro hc
    rw [hc] at h
    simp at h
  obtain ⟨e, rest, hcons⟩ := List.exists_cons_of_ne_nil hne
  have hout : (accumulate_rewards cfg exps d v false).2
      = (accumPass cfg d exps 0).1 := rfl
  refine ⟨by rw [hout, accumPass_length], ?_, fun w => rfl⟩
  rw [hout, hcons, accumPass_headI_reward, ← hcons, accumPass_snd]
  simp

def cfgW2 : Config := ⟨9/10, false, 0, 0, 5, 0, false, 100⟩

def expsW2 : List Experience := [⟨0, 0, [], 1⟩, ⟨1, 1, [], 2⟩, ⟨2, 0, [], 3⟩]

/-- Witness for C2 on the spec's terminal example: discount 9/10, rewards
1, 2, 3, bootstrap ignored. -/
theorem accumulate_terminal_spec_witness :
    1 ≤ expsW2.length
    ∧ (((accumulate_rewards cfgW2 expsW2 (9/10) 10 false).2).length = expsW2.length
       ∧ ((accumulate_rewards cfgW2 expsW2 (9/10) 10 false).2).headI.reward
           = ∑ t ∈ Finset.range expsW2.length,
               (9/10 : ℚ) ^ t * clip cfgW2 ((expsW2.getD t dummyExp).reward)
       ∧ ∀ w : ℚ, accumulate_rewards cfgW2 expsW2 (9/10) w false
           = accumulate_rewards cfgW2 expsW2 (9/10) 10 false) :=
  ⟨by decide, accumulate_terminal_spec cfgW2 expsW2 (9/10) 10 (by decide)⟩

/-- C6: a window of exactly one experience in the non-terminal case yields
an empty output, and the experience list is left untouched (no reward is
overwritten). -/
theorem accumulate_singleton_nonterminal (cfg : Config) (exps : List Experience)
    (d v : ℚ) (h : exps.length = 1) :
    (accumulate_rewards cfg exps d v true).2 = []
    ∧ (accumulate_rewards cfg exps d v true).1 = exps := by
  obtain ⟨e, rfl⟩ := List.length_eq_one.mp h
  constructor
  · rfl
  · simp [accumulate_rewards, accumPass]

/-- Witness for C6 at a concrete singleton window. -/
theorem accumulate_singleton_nonterminal_witness :
    ([(⟨7, 2, [1/2, 1/2], 5⟩ : Experience)] : List Experience).length = 1
    ∧ ((accumulate_rewards ⟨9/10, true, -1, 1, 5, 0, false, 100⟩
          [⟨7, 2, [1/2, 1/2], 5⟩] (9/10) 4 true).2 = []
       ∧ (accumulate_rewards ⟨9/10, true, -1, 1, 5, 0, false, 100⟩
          [⟨7, 2, [1/2, 1/2], 5⟩] (9/10) 4 true).1 = [⟨7, 2, [1/2, 1/2], 5⟩]) :=
  ⟨by decide,
    accumulate_singleton_nonterminal ⟨9/10, true, -1, 1, 5, 0, false, 100⟩
      [⟨7, 2, [1/2, 1/2], 5⟩] (9/10) 4 (by decide)⟩

/-- Oracle record for one iteration of the run_episode while-loop:
the observation recorded into the experience (env.previous_state), the
action chosen by select_action, the prediction and value returned by the
prediction service, and the (reward, is_running) pair returned by
env.step. -/
structure StepOut where
  state : ℕ
  action : ℕ
  prediction : List ℚ
  value : ℚ
  reward : ℚ
  is_running : Bool
deriving DecidableEq

/-- Loop-local state of run_episode: the experience buffer, the tmax
counter and the running per-segment reward sum. -/
structure EpState where
  experiences : List Experience
  time_count : ℕ
  reward_sum : ℚ
deriving DecidableEq

/-- One yield of the run_episode generator, before conversion by
convert_data: the buffer at the moment _accumulate_rewards is invoked
(window), the slice it returns (output), and the yielded reward_sum,
time_count and terminal flag. -/
structure Emit where
  window : List Experience
  output : List Experience
  reward_sum : ℚ
  time_count : ℕ
  terminal : Bool
deriving DecidableEq

def dummyEmit : Emit := ⟨[], [], 0, 0, false⟩

instance : Inhabited Emit := ⟨dummyEmit⟩

/-- Buffer state at the top of an episode (lines 106-111): empty buffer,
time_count 0, reward_sum 0. -/
def initEpState : EpState := ⟨[], 0, 0⟩

/-- The segment-boundary test of line 137: not is_running or
time_count == TIME_MAX. -/
def epBoundary (cfg : Config) (s : EpState) (o : StepOut) : Bool :=
  !o.is_running || s.time_count == cfg.TIME_MAX

/-- The experience buffer after line 135: the buffer with the new
experience (previous_state, action, prediction, raw reward) appended. -/
def appendExp (s : EpState) (o : StepOut) : List Experience :=
  s.experiences ++ [⟨o.state, o.action, o.prediction, o.reward⟩]

/-- The yield of lines 138-140: the buffer at the moment the accumulator
is invoked, the accumulator's output, the raw reward sum, the pre-reset
time_count, and whether the cut was terminal. -/
def emitOf (cfg : Config) (d : ℚ) (s : EpState) (o : StepOut) : Emit :=
  ⟨appendExp s o,
   (accumulate_rewards cfg (appendExp s o) d o.value o.is_running).2,
   s.reward_sum + o.reward, s.time_count, !o.is_running⟩

/-- The loop state after the boundary block (lines 142-151): the buffer
keeps only the last element of the mutated list, time_count is reset to 0
and then incremented, reward_sum is reset. -/
def resetState (cfg : Config) (d : ℚ) (s : EpState) (o : StepOut) : EpState :=
  ⟨[(accumulate_rewards cfg (appendExp s o) d o.value o.is_running).1.getLastD dummyExp],
   0 + 1, 0⟩

/-- The loop state after a non-boundary iteration: buffer grown,
time_count incremented, raw reward added to reward_sum. -/
def advanceState (s : EpState) (o : StepOut) : EpState :=
  ⟨appendExp s o, s.time_count + 1, s.reward_sum + o.reward⟩

/-- One iteration of the while-loop body of run_episode (lines 129-151).
Returns the new loop state and the yield, if any. -/
def episodeStep (cfg : Config) (d : ℚ) (s : EpState) (o : StepOut) :
    EpState × Option Emit :=
  if epBoundary cfg s o then (resetState cfg d s o, some (emitOf cfg d s o))
  else (advanceState s o, none)

/-- The while-loop of run_episode driven by a trace of oracle step
outcomes: iterate while is_running holds, collecting the yields.  A trace
that ends while the episode is still running simply stops producing
yields (the generator is abandoned mid-episode). -/
def runEpisodeAux (cfg : Config) (d : ℚ) : List StepOut → EpState → List Emit
  | [], _ => []
  | o :: rest, s =>
    let r := episodeStep cfg d s o
    match r.2 with
    | none => runEpisodeAux cfg d rest r.1
    | some em => if o.is_running then em :: runEpisodeAux cfg d rest r.1 else [em]

/-- run_episode (lines 105-151) as a function of the oracle trace. -/
def run_episode (cfg : Config) (d : ℚ) (trace : List StepOut) : List Emit :=
  runEpisodeAux cfg d trace initEpState

/-- Invariant of the run_episode loop relating the buffer length to the
tmax counter. -/
def EpInv (cfg : Config) (s : EpState) : Prop :=
  s.experiences.length ≤ s.time_count ∧ s.time_count ≤ cfg.TIME_MAX

lemma epInv_init (cfg : Config) : EpInv cfg initEpState :=
  ⟨Nat.le_refl 0, Nat.zero_le _⟩

lemma runEpisodeAux_cons_boundary (cfg : Config) (d : ℚ) (o : StepOut)
    (rest : List StepOut) (s : EpState) (hb : epBoundary cfg s o = true) :
    runEpisodeAux cfg d (o :: rest) s
      = if o.is_running then
          emitOf cfg d s o :: runEpisodeAux cfg d rest (resetState cfg d s o)
        else [emitOf cfg d s o] := by
  simp [runEpisodeAux, episodeStep, hb]

lemma runEpisodeAux_cons_advance (cfg : Config) (d : ℚ) (o : StepOut)
    (rest : List StepOut) (s : EpState) (hb : epBoundary cfg s o = false) :
    runEpisodeAux cfg d (o :: rest) s
      = runEpisodeAux cfg d rest (advanceState s o) := by
  simp [runEpisodeAux, episodeStep, hb]

lemma window_bound_aux (cfg : Config) (d : ℚ) (hT : 1 ≤ cfg.TIME_MAX) :
    ∀ (trace : List StepOut) (s : EpState), EpInv cfg s →
      ∀ em ∈ runEpisodeAux cfg d trace s, em.window.length ≤ cfg.TIME_MAX + 1 := by
  intro trace
  induction trace with
  | nil => intro s _ em hm; simp [runEpisodeAux] at hm
  | cons o rest ih =>
    intro s hs em hm
    obtain ⟨hs1, hs2⟩ := hs
    by_cases hb : epBoundary cfg s o = true
    · rw [runEpisodeAux_cons_boundary cfg d o rest s hb] at hm
      have hwin : (emitOf cfg d s o).window.length ≤ cfg.TIME_MAX + 1 := by
        simp only [emitOf, appendExp, List.length_append, List.length_cons,
          List.length_nil]
        omega
      have hinv : EpInv cfg (resetState cfg d s o) := by
        refine ⟨?_, ?_⟩
        · simp [resetState]
        · simp only [resetState]
          omega
      cases hr : o.is_running with
      | true =>
        rw [hr] at hm
        simp only [if_true] at hm
        rcases List.mem_cons.mp hm with h | h
        · rw [h]; exact hwin
        · exact ih (resetState cfg d s o) hinv em h
      | false =>
        rw [hr] at hm
        simp only [Bool.false_eq_true, if_false] at hm
        rw [List.mem_singleton.mp hm]
        exact hwin
    · rw [Bool.not_eq_true] at hb
      have hb2 := hb
      simp only [epBoundary, Bool.or_eq_false_iff, Bool.not_eq_false,
        beq_eq_false_iff_ne, ne_eq] at hb2
      rw [runEpisodeAux_cons_advance cfg d o rest s hb] at hm
      refine ih (advanceState s o) ⟨?_, ?_⟩ em hm
      · simp only [advanceState, appendExp, List.length_append, List.length_cons,
          List.length_nil]
        omega
      · simp only [advanceState]
        have := hb2.2
        omega

/-- C4 (amended): along every run of the episode loop with a positive
segment cap, the experience buffer at the moment the accumulator is
invoked holds at most TIME_MAX + 1 experiences (the bound TIME_MAX + 1 is
attained, see the counterexample to the original claim). -/
theorem window_length_le (cfg : Config) (d : ℚ) (trace : List StepOut)
    (hT : 1 ≤ cfg.TIME_MAX) :
    ∀ em ∈ run_episode cfg d trace, em.window.length ≤ cfg.TIME_MAX + 1 :=
  window_bound_aux cfg d hT trace initEpState (epInv_init cfg)

def cfgW4 : Config := ⟨1/2, false, 0, 0, 1, 0, false, 100⟩

def traceW4 : List StepOut :=
  [⟨0, 0, [1], 0, 1, true⟩, ⟨1, 0, [1], 2, 1, true⟩, ⟨2, 0, [1], 0, 1, false⟩]

/-- Witness for C4 (amended) at TIME_MAX = 1 on a three-step trace. -/
theorem window_length_le_witness :
    1 ≤ cfgW4.TIME_MAX
    ∧ ∀ em ∈ run_episode cfgW4 (1/2) traceW4, em.window.length ≤ cfgW4.TIME_MAX + 1 :=
  ⟨by decide, window_length_le cfgW4 (1/2) traceW4 (by decide)⟩

/-- Counterexample to C4 as stated: with TIME_MAX = 1, after two
non-terminal steps the boundary fires with 2 = TIME_MAX + 1 experiences
in the buffer, so the window passed to the accumulator exceeds TIME_MAX. -/
theorem window_length_gt_TIME_MAX :
    ((run_episode cfgW4 (1/2) [⟨0, 0, [1], 0, 1, true⟩, ⟨1, 0, [1], 2, 1, true⟩]).headI.window.length
        = cfgW4.TIME_MAX + 1)
    ∧ ¬ ((run_episode cfgW4 (1/2) [⟨0, 0, [1], 0, 1, true⟩, ⟨1, 0, [1], 2, 1, true⟩]).headI.window.length
        ≤ cfgW4.TIME_MAX) := by
  constructor
  · decide
  · decide

/-- After a non-terminal accumulation the last element of the mutated
buffer is exactly the last element of the input window, raw reward
included: the backward scan stops at index len-2. -/
lemma accumulate_fst_nonterminal_last (cfg : Config) (l : List Experience)
    (a : Experience) (d v : ℚ) :
    (accumulate_rewards cfg (l ++ [a]) d v true).1.getLastD dummyExp = a := by
  have hdrop : (l ++ [a]).drop ((l ++ [a]).length - 1) = [a] := by
    have hlen : (l ++ [a]).length - 1 = l.length := by simp
    rw [hlen]
    exact List.drop_left l [a]
  have : (accumulate_rewards cfg (l ++ [a]) d v true).1
      = (accumPass cfg d (l ++ [a]).dropLast v).1 ++ [a] := by
    simp only [accumulate_rewards, if_true]
    rw [hdrop]
  rw [this]
  simp

/-- Any yield produced by runEpisodeAux whose terminal flag is set is the
last yield of the episode: no experience is carried into a subsequent
segment after a terminal cut. -/
lemma terminal_emit_is_last (cfg : Config) (d : ℚ) :
    ∀ (trace : List StepOut) (s : EpState) (i : ℕ) (em : Emit),
      (runEpisodeAux cfg d trace s)[i]? = some em → em.terminal = true →
      i + 1 = (runEpisodeAux cfg d trace s).length := by
  intro trace
  induction trace with
  | nil => intro s i em hi ht; simp [runEpisodeAux] at hi
  | cons o rest ih =>
    intro s i em hi ht
    by_cases hb : epBoundary cfg s o = true
    · rw [runEpisodeAux_cons_boundary cfg d o rest s hb] at hi ⊢
      by_cases hr : o.is_running = true
      · rw [if_pos hr] at hi ⊢
        cases i with
        | zero =>
          rw [List.getElem?_cons_zero] at hi
          injection hi with h
          rw [← h] at ht
          simp [emitOf, hr] at ht
        | succ j =>
          rw [List.getElem?_cons_succ] at hi
          have := ih (resetState cfg d s o) j em hi ht
          simp only [List.length_cons]
          omega
      · rw [if_neg hr] at hi ⊢
        cases i with
        | zero => simp
        | succ j =>
          rw [List.getElem?_cons_succ] at hi
          simp at hi
    · rw [Bool.not_eq_true] at hb
      rw [runEpisodeAux_cons_advance cfg d o rest s hb] at hi ⊢
      exact ih (advanceState s o) i em hi ht

/-- C5: at a non-terminal cut the retained buffer for the next segment is
exactly the last experience of the emitted window, with its state,
action, prediction and raw reward intact (the accumulator rewrites only
rewards of the other elements, and the emitted output keeps the
state/action/prediction fields of the window); after a terminal cut no
experience is carried over, as the terminal yield is the last one of the
episode. -/
theorem carry_over_spec (cfg : Config) (d : ℚ) (s : EpState) (o : StepOut)
    (hb : epBoundary cfg s o = true) (hr : o.is_running = true)
    (trace : List StepOut) (s2 : EpState) (i : ℕ) (em : Emit)
    (hi : (runEpisodeAux cfg d trace s2)[i]? = some em)
    (ht : em.terminal = true) :
    ((episodeStep cfg d s o).1.experiences
        = [(emitOf cfg d s o).window.getLastD dummyExp]
     ∧ (emitOf cfg d s o).window.getLastD dummyExp
        = ⟨o.state, o.action, o.prediction, o.reward⟩
     ∧ (emitOf cfg d s o).output.map (fun e => (e.state, e.action, e.prediction))
        = (emitOf cfg d s o).window.dropLast.map (fun e => (e.state, e.action, e.prediction)))
    ∧ i + 1 = (runEpisodeAux cfg d trace s2).length := by
  refine ⟨⟨?_, ?_, ?_⟩, terminal_emit_is_last cfg d trace s2 i em hi ht⟩
  · have hstep : (episodeStep cfg d s o).1 = resetState cfg d s o := by
      simp [episodeStep, hb]
    rw [hstep]
    simp only [resetState, emitOf, appendExp, hr]
    rw [accumulate_fst_nonterminal_last]
    simp
  · simp [emitOf, appendExp]
  · simp only [emitOf, appendExp, hr]
    have h2 : (accumulate_rewards cfg
        (s.experiences ++ [(⟨o.state, o.action, o.prediction, o.reward⟩ : Experience)])
        d o.value true).2
      = (accumPass cfg d
          (s.experiences
            ++ [(⟨o.state, o.action, o.prediction, o.reward⟩ : Experience)]).dropLast
          o.value).1 := rfl
    rw [h2, accumPass_map_sap]

def cfgW5 : Config := ⟨1/2, false, 0, 0, 1, 0, false, 100⟩

def sW5 : EpState := ⟨[⟨5, 1, [1], 2⟩], 1, 2⟩

def oW5 : StepOut := ⟨6, 0, [1], 3, 4, true⟩

def traceW5 : List StepOut := [⟨0, 0, [1], 0, 1, false⟩]

def emW5 : Emit := ⟨[⟨0, 0, [1], 1⟩], [⟨0, 0, [1], 1⟩], 1, 0, true⟩

/-- Witness for C5 at concrete inputs: a non-terminal cut at the segment
cap, and a single-step terminal episode. -/
theorem carry_over_spec_witness :
    ((episodeStep cfgW5 (1/2) sW5 oW5).1.experiences
        = [(emitOf cfgW5 (1/2) sW5 oW5).window.getLastD dummyExp]
     ∧ (emitOf cfgW5 (1/2) sW5 oW5).window.getLastD dummyExp
        = ⟨6, 0, [1], 4⟩
     ∧ (emitOf cfgW5 (1/2) sW5 oW5).output.map (fun e => (e.state, e.action, e.prediction))
        = (emitOf cfgW5 (1/2) sW5 oW5).window.dropLast.map (fun e => (e.state, e.action, e.prediction)))
    ∧ 0 + 1 = (runEpisodeAux cfgW5 (1/2) traceW5 initEpState).length :=
  carry_over_spec cfgW5 (1/2) sW5 oW5 (by decide) (by decide)
    traceW5 initEpState 0 emW5
    (by simp [runEpisodeAux, episodeStep, epBoundary, emitOf, appendExp,
          accumulate_rewards, accumPass, clip, resetState, traceW5, initEpState,
          cfgW5, emW5])
    (by decide)

/-- Maximum of a list of rationals (np.max over a nonempty vector; the
value on the empty list is irrelevant). -/
def listMax : List ℚ → ℚ
  | [] => 0
  | [x] => x
  | x :: y :: ys => max x (listMax (y :: ys))

/-- np.argmax: index of the maximum element, first occurrence on ties. -/
def argmax : List ℚ → ℕ
  | [] => 0
  | [_] => 0
  | x :: y :: ys => if listMax (y :: ys) ≤ x then 0 else argmax (y :: ys) + 1

/-- select_action (lines 98-103): arg-max of the prediction in play mode,
otherwise a sample from the prediction distribution, modelled by the
sample oracle argument. -/
def select_action (cfg : Config) (sample : ℕ) (prediction : List ℚ) : ℕ :=
  if cfg.PLAY_MODE then argmax prediction else sample

lemma le_listMax : ∀ (l : List ℚ) (a : ℚ), a ∈ l → a ≤ listMax l := by
  intro l
  induction l with
  | nil => intro a ha; simp at ha
  | cons x xs ih =>
    intro a ha
    cases xs with
    | nil =>
      rw [List.mem_singleton] at ha
      rw [ha, listMax]
    | cons y ys =>
      rw [listMax]
      rcases List.mem_cons.mp ha with h | h
      · rw [h]
        exact le_max_left _ _
      · exact le_trans (ih a h) (le_max_right _ _)

lemma argmax_lt_length : ∀ (l : List ℚ), l ≠ [] → argmax l < l.length := by
  intro l
  induction l with
  | nil => intro h; exact absurd rfl h
  | cons x xs ih =>
    intro _
    cases xs with
    | nil => rw [argmax]; simp
    | cons y ys =>
      rw [argmax]
      by_cases hle : listMax (y :: ys) ≤ x
      · rw [if_pos hle]; simp
      · rw [if_neg hle]
        have := ih (by simp)
        simp only [List.length_cons] at this ⊢
        omega

lemma getD_argmax : ∀ (l : List ℚ), l ≠ [] → l.getD (argmax l) 0 = listMax l := by
  intro l
  induction l with
  | nil => intro h; exact absurd rfl h
  | cons x xs ih =>
    intro _
    cases xs with
    | nil => rw [argmax, listMax]; rfl
    | cons y ys =>
      rw [argmax, listMax]
      by_cases hle : listMax (y :: ys) ≤ x
      · rw [if_pos hle, List.getD_cons_zero, max_eq_left hle]
      · rw [if_neg hle, List.getD_cons_succ, ih (by simp),
          max_eq_right (le_of_lt (lt_of_not_le hle))]

lemma getD_lt_of_lt_argmax :
    ∀ (l : List ℚ) (i : ℕ), i < argmax l → l.getD i 0 < listMax l := by
  intro l
  induction l with
  | nil => intro i hi; rw [argmax] at hi; omega
  | cons x xs ih =>
    intro i hi
    cases xs with
    | nil => rw [argmax] at hi; omega
    | cons y ys =>
      rw [argmax] at hi
      by_cases hle : listMax (y :: ys) ≤ x
      · rw [if_pos hle] at hi; omega
      · rw [if_neg hle] at hi
        rw [listMax, max_eq_right (le_of_lt (lt_of_not_le hle))]
        cases i with
        | zero => rw [List.getD_cons_zero]; exact lt_of_not_le hle
        | succ j =>
          rw [List.getD_cons_succ]
          exact ih j (by omega)

/-- C7: in play mode select_action depends only on the prediction vector
(the stochastic sample oracle is ignored), it returns a valid index whose
entry is the maximum of the vector, every entry is bounded by the chosen
entry, and every earlier entry is strictly smaller (first-occurrence
tie-break). -/
theorem select_action_play_spec (cfg : Config) (hp : cfg.PLAY_MODE = true)
    (p : List ℚ) (hne : p ≠ []) :
    (∀ s1 s2 : ℕ, select_action cfg s1 p = select_action cfg s2 p)
    ∧ select_action cfg 0 p < p.length
    ∧ p.getD (select_action cfg 0 p) 0 = listMax p
    ∧ (∀ i, i < p.length → p.getD i 0 ≤ p.getD (select_action cfg 0 p) 0)
    ∧ (∀ i, i < select_action cfg 0 p → p.getD i 0 < p.getD (select_action cfg 0 p) 0) := by
  have hsel : ∀ s : ℕ, select_action cfg s p = argmax p := by
    intro s
    simp [select_action, hp]
  refine ⟨fun s1 s2 => by rw [hsel s1, hsel s2], ?_, ?_, ?_, ?_⟩
  · rw [hsel]
    exact argmax_lt_length p hne
  · rw [hsel]
    exact getD_argmax p hne
  · intro i hilen
    rw [hsel, getD_argmax p hne]
    apply le_listMax
    rw [List.getD_eq_getElem p 0 hilen]
    exact List.getElem_mem hilen
  · intro i hi
    rw [hsel] at hi ⊢
    rw [getD_argmax p hne]
    exact getD_lt_of_lt_argmax p i hi

def cfgW7 : Config := ⟨9/10, false, 0, 0, 5, 0, true, 100⟩

/-- Witness for C7 on the vector [1/10, 3/10, 3/10, 2/10]: the arg-max
index is 1, the first occurrence of the tied maximum. -/
theorem select_action_play_spec_witness :
    cfgW7.PLAY_MODE = true
    ∧ (([1/10, 3/10, 3/10, 2/10] : List ℚ) ≠ []
       ∧ ((∀ s1 s2 : ℕ, select_action cfgW7 s1 [1/10, 3/10, 3/10, 2/10]
             = select_action cfgW7 s2 [1/10, 3/10, 3/10, 2/10])
          ∧ select_action cfgW7 0 [1/10, 3/10, 3/10, 2/10]
              < ([1/10, 3/10, 3/10, 2/10] : List ℚ).length
          ∧ ([1/10, 3/10, 3/10, 2/10] : List ℚ).getD
                (select_action cfgW7 0 [1/10, 3/10, 3/10, 2/10]) 0
              = listMax [1/10, 3/10, 3/10, 2/10]
          ∧ (∀ i, i < ([1/10, 3/10, 3/10, 2/10] : List ℚ).length →
              ([1/10, 3/10, 3/10, 2/10] : List ℚ).getD i 0
                ≤ ([1/10, 3/10, 3/10, 2/10] : List ℚ).getD
                    (select_action cfgW7 0 [1/10, 3/10, 3/10, 2/10]) 0)
          ∧ (∀ i, i < select_action cfgW7 0 [1/10, 3/10, 3/10, 2/10] →
              ([1/10, 3/10, 3/10, 2/10] : List ℚ).getD i 0
                < ([1/10, 3/10, 3/10, 2/10] : List ℚ).getD
                    (select_action cfgW7 0 [1/10, 3/10, 3/10, 2/10]) 0))) :=
  ⟨rfl, by simp,
    select_action_play_spec cfgW7 rfl [1/10, 3/10, 3/10, 2/10] (by simp)⟩

/-- Per-layer recurrent state: the dict with keys c and h built on lines
114-119 and 95. -/
structure LSTMState where
  c : List ℚ
  h : List ℚ
deriving DecidableEq

/-- Response delivered on the worker's private wait queue (line 89). -/
structure PredResponse where
  p : List ℚ
  v : ℚ
  c_state : List (List ℚ)
  h_state : List (List ℚ)
deriving DecidableEq

/-- The request tuple put on the shared prediction queue (lines 85-87):
(id, state, c_state, h_state), where the recurrent fields are None when
there are no recurrent layers and otherwise the stacked per-layer
vectors. -/
def predictRequest (id : ℕ) (state : ℕ) (lstm_inputs : List LSTMState) :
    ℕ × ℕ × Option (List (List ℚ)) × Option (List (List ℚ)) :=
  (id, state,
   if lstm_inputs.length ≠ 0 then some (lstm_inputs.map LSTMState.c) else none,
   if lstm_inputs.length ≠ 0 then some (lstm_inputs.map LSTMState.h) else none)

/-- The value returned by predict to its caller (lines 89-96): the
probabilities, the value, and the recurrent state converted back to a
list of per-layer dicts, which is empty when there are no recurrent
layers. -/
def predictResult (lstm_inputs : List LSTMState) (resp : PredResponse) :
    List ℚ × ℚ × List LSTMState :=
  if lstm_inputs.length = 0 then (resp.p, resp.v, [])
  else (resp.p, resp.v,
    (List.range resp.c_state.length).map
      (fun i => ⟨resp.c_state.getD i [], resp.h_state.getD i []⟩))

/-- The initial recurrent input of an episode (lines 114-115): one
zero-filled (c, h) pair of width 256 per configured layer. -/
def lstmInit (cfg : Config) : List LSTMState :=
  List.replicate cfg.NUM_LSTMS ⟨List.replicate 256 0, List.replicate 256 0⟩

/-- C8: with zero recurrent layers the request carries the explicit
absence marker in both recurrent fields and predict hands an empty
recurrent-state list back to the caller; with a positive layer count both
request fields are arrays with exactly one entry per layer. -/
theorem predict_lstm_fields (cfg : Config) (id st : ℕ) (resp : PredResponse) :
    (cfg.NUM_LSTMS = 0 →
       (predictRequest id st (lstmInit cfg)).2.2.1 = none
       ∧ (predictRequest id st (lstmInit cfg)).2.2.2 = none
       ∧ (predictResult (lstmInit cfg) resp).2.2 = [])
    ∧ (0 < cfg.NUM_LSTMS →
       ∃ cs hs : List (List ℚ),
         (predictRequest id st (lstmInit cfg)).2.2.1 = some cs
         ∧ cs.length = cfg.NUM_LSTMS
         ∧ (predictRequest id st (lstmInit cfg)).2.2.2 = some hs
         ∧ hs.length = cfg.NUM_LSTMS) := by
  have hlen : (lstmInit cfg).length = cfg.NUM_LSTMS := by
    rw [lstmInit, List.length_replicate]
  constructor
  · intro h0
    have hnil : lstmInit cfg = [] := by
      rw [lstmInit, h0]
      rfl
    refine ⟨?_, ?_, ?_⟩
    · simp [predictRequest, hnil]
    · simp [predictRequest, hnil]
    · simp [predictResult, hnil]
  · intro hpos
    have hne : (lstmInit cfg).length ≠ 0 := by
      rw [hlen]
      omega
    refine ⟨(lstmInit cfg).map LSTMState.c, (lstmInit cfg).map LSTMState.h,
      ?_, ?_, ?_, ?_⟩
    · simp [predictRequest, hne]
    · rw [List.length_map, hlen]
    · simp [predictRequest, hne]
    · rw [List.length_map, hlen]

/-- Witness for C8 at layer counts 0 and 2, with the implications
discharged at those concrete configurations. -/
theorem predict_lstm_fields_witness :
    ((predictRequest 3 7 (lstmInit ⟨9/10, false, 0, 0, 5, 0, false, 100⟩)).2.2.1 = none
     ∧ (predictRequest 3 7 (lstmInit ⟨9/10, false, 0, 0, 5, 0, false, 100⟩)).2.2.2 = none
     ∧ (predictResult (lstmInit ⟨9/10, false, 0, 0, 5, 0, false, 100⟩)
          ⟨[1], 0, [], []⟩).2.2 = [])
    ∧ (∃ cs hs : List (List ℚ),
        (predictRequest 3 7 (lstmInit ⟨9/10, false, 0, 0, 5, 2, false, 100⟩)).2.2.1 = some cs
        ∧ cs.length = (⟨9/10, false, 0, 0, 5, 2, false, 100⟩ : Config).NUM_LSTMS
        ∧ (predictRequest 3 7 (lstmInit ⟨9/10, false, 0, 0, 5, 2, false, 100⟩)).2.2.2 = some hs
        ∧ hs.length = (⟨9/10, false, 0, 0, 5, 2, false, 100⟩ : Config).NUM_LSTMS) :=
  ⟨(predict_lstm_fields ⟨9/10, false, 0, 0, 5, 0, false, 100⟩ 3 7 ⟨[1], 0, [], []⟩).1 rfl,
   (predict_lstm_fields ⟨9/10, false, 0, 0, 5, 2, false, 100⟩ 3 7 ⟨[1], 0, [], []⟩).2
     (by decide)⟩

/-- The guard of the top-level episode loop, line 159:
while total_steps == Config.MAX_STEPS or self.exit_flag.value == 0.
A new episode is started exactly when this guard is true. -/
def run_loop_guard (cfg : Config) (total_steps : ℕ) (exit_flag : ℤ) : Bool :=
  total_steps == cfg.MAX_STEPS || exit_flag == 0

/-- C3 is contradicted by the code: with MAX_STEPS = 10 the guard stays
true once total_steps has reached (10) or exceeded (11) the threshold
while the exit flag is unset, so a new episode is started; and with the
exit flag set the loop still continues when total_steps equals
MAX_STEPS exactly. -/
theorem run_loop_guard_bug :
    run_loop_guard ⟨9/10, false, 0, 0, 5, 0, false, 10⟩ 10 0 = true
    ∧ run_loop_guard ⟨9/10, false, 0, 0, 5, 0, false, 10⟩ 11 0 = true
    ∧ run_loop_guard ⟨9/10, false, 0, 0, 5, 0, false, 10⟩ 10 1 = true := by
  refine ⟨?_, ?_, ?_⟩ <;> decide

/-- One row of np.eye(num_actions)[action]: the one-hot encoding of an
action index. -/
def oneHot (n a : ℕ) : List ℚ :=
  (List.range n).map (fun i => if i = a then 1 else 0)

/-- convert_data (lines 75-79): states, rewards and one-hot actions of
the emitted experiences, all of the same length. -/
def convert_data (num_actions : ℕ) (exps : List Experience) :
    List ℕ × List ℚ × List (List ℚ) :=
  (exps.map Experience.state, exps.map Experience.reward,
   exps.map (fun e => oneHot num_actions e.action))

/-- The tuple yielded by run_episode to run (line 140), after
convert_data. -/
structure Yield where
  x : List ℕ
  r : List ℚ
  a : List (List ℚ)
  reward_sum : ℚ
  steps : ℕ
deriving DecidableEq

def emitYield (num_actions : ℕ) (em : Emit) : Yield :=
  ⟨(convert_data num_actions em.output).1,
   (convert_data num_actions em.output).2.1,
   (convert_data num_actions em.output).2.2,
   em.reward_sum, em.time_count⟩

/-- The per-episode accumulators of run (lines 160-165). -/
structure RunTotals where
  total_steps : ℕ
  total_reward : ℚ
  total_length : ℕ
deriving DecidableEq

/-- The body of the for-loop in run (lines 163-165): total_steps grows by
the yielded steps, total_reward by the yielded reward_sum, total_length
by len(r_) + 1, the extra one being the last frame that we drop. -/
def totalsStep (t : RunTotals) (y : Yield) : RunTotals :=
  ⟨t.total_steps + y.steps, t.total_reward + y.reward_sum,
   t.total_length + (y.r.length + 1)⟩

/-- The episode statistics accumulated by run over the yields of one
run_episode call, starting from zero (lines 160-161). -/
def episodeTotals (ys : List Yield) : RunTotals :=
  ys.foldl totalsStep ⟨0, 0, 0⟩

lemma foldl_totals_length (ys : List Yield) :
    ∀ t : RunTotals, (List.foldl totalsStep t ys).total_length
      = t.total_length + (ys.map (fun y => y.r.length + 1)).sum := by
  induction ys with
  | nil => intro t; simp
  | cons y ys ih =>
    intro t
    rw [List.foldl_cons, ih, List.map_cons, List.sum_cons]
    simp only [totalsStep]
    omega

lemma foldl_totals_reward (ys : List Yield) :
    ∀ t : RunTotals, (List.foldl totalsStep t ys).total_reward
      = t.total_reward + (ys.map Yield.reward_sum).sum := by
  induction ys with
  | nil => intro t; simp
  | cons y ys ih =>
    intro t
    rw [List.foldl_cons, ih, List.map_cons, List.sum_cons]
    simp only [totalsStep]
    ring

/-- C9: for every episode the total_episode_length reported to the
episode-log sink is the sum over the emitted segments of the output
length plus exactly one, for terminal and non-terminal segments alike. -/
theorem episode_length_accounting (cfg : Config) (d : ℚ) (num_actions : ℕ)
    (trace : List StepOut) :
    (episodeTotals ((run_episode cfg d trace).map (emitYield num_actions))).total_length
      = ((run_episode cfg d trace).map (fun em => em.output.length + 1)).sum := by
  rw [episodeTotals, foldl_totals_length, List.map_map]
  have hcomp : ((fun y : Yield => y.r.length + 1) ∘ emitYield num_actions)
      = fun em : Emit => em.output.length + 1 := by
    funext em
    simp [emitYield, convert_data]
  rw [hcomp]
  simp

lemma episode_reward_aux (cfg : Config) (d : ℚ) (olast : StepOut)
    (hterm : olast.is_running = false) :
    ∀ (body : List StepOut) (s : EpState), (∀ o ∈ body, o.is_running = true) →
      ((runEpisodeAux cfg d (body ++ [olast]) s).map Emit.reward_sum).sum
        = s.reward_sum + ((body ++ [olast]).map StepOut.reward).sum := by
  intro body
  induction body with
  | nil =>
    intro s _
    rw [List.nil_append,
      runEpisodeAux_cons_boundary cfg d olast [] s (by simp [epBoundary, hterm]),
      if_neg (by simp [hterm])]
    simp [emitOf]
  | cons o body ih =>
    intro s hrun
    have ho : o.is_running = true := hrun o (List.mem_cons_self o body)
    have hrest : ∀ o2 ∈ body, o2.is_running = true :=
      fun o2 h2 => hrun o2 (List.mem_cons_of_mem o h2)
    by_cases hb : epBoundary cfg s o = true
    · rw [List.cons_append,
        runEpisodeAux_cons_boundary cfg d o (body ++ [olast]) s hb, if_pos ho,
        List.map_cons, List.sum_cons, ih (resetState cfg d s o) hrest]
      simp only [emitOf, resetState, List.map_cons, List.sum_cons]
      ring
    · rw [Bool.not_eq_true] at hb
      rw [List.cons_append,
        runEpisodeAux_cons_advance cfg d o (body ++ [olast]) s hb,
        ih (advanceState s o) hrest]
      simp only [advanceState, List.map_cons, List.sum_cons]
      ring

/-- C10: the total_episode_reward reported to the episode-log sink is the
sum of the raw environment rewards of the episode's steps, for every
configuration, in particular whatever the clipping settings are and
despite the accumulator overwriting the buffered rewards. -/
theorem episode_total_reward_raw (cfg : Config) (d : ℚ) (num_actions : ℕ)
    (body : List StepOut) (olast : StepOut)
    (hrun : ∀ o ∈ body, o.is_running = true)
    (hterm : olast.is_running = false) :
    (episodeTotals
        ((run_episode cfg d (body ++ [olast])).map (emitYield num_actions))).total_reward
      = ((body ++ [olast]).map StepOut.reward).sum := by
  rw [episodeTotals, foldl_totals_reward, List.map_map]
  have hcomp : (Yield.reward_sum ∘ emitYield num_actions) = Emit.reward_sum := by
    funext em
    rfl
  rw [hcomp, run_episode,
    episode_reward_aux cfg d olast hterm body initEpState hrun]
  simp [initEpState]

def cfgW10 : Config := ⟨1/2, true, -1, 1, 5, 0, false, 100⟩

def bodyW10 : List StepOut := [⟨0, 0, [1], 0, 5, true⟩]

def olastW10 : StepOut := ⟨1, 0, [1], 0, -3, false⟩

/-- Witness for C10: clipping is enabled with bounds [-1, 1] and the raw
rewards 5 and -3 lie outside them, yet the reported episode reward is the
raw sum 2. -/
theorem episode_total_reward_raw_witness :
    (∀ o ∈ bodyW10, o.is_running = true)
    ∧ olastW10.is_running = false
    ∧ (episodeTotals
        ((run_episode cfgW10 (1/2) (bodyW10 ++ [olastW10])).map (emitYield 2))).total_reward
      = ((bodyW10 ++ [olastW10]).map StepOut.reward).sum :=
  ⟨by decide, rfl,
    episode_total_reward_raw cfgW10 (1/2) 2 bodyW10 olastW10 (by decide) rfl⟩

end GA3C
